import Mathlib

/-!
# gitDash — verification of the sync-and-cache engine and the scoring layer

Shallow embedding of the core of the gitDash repository:

* `src/commit_agent.py` — `CommitAgent`: staleness check, fetch orchestration,
  summary generation and the cache record management (`sync_repos`,
  `get_commits`, `get_summary`, `save_cache` / `load_cache`).
* `src/board.py` — `Board.get_projects` and `Board._count_commits_in_window`:
  time-windowed activity counts, the composite weight and the ranking sort.

Modelling conventions:

* Timestamps.  The Python code stores ISO-8601 strings and compares them after
  parsing to timezone-aware `datetime` values (`sync_repos` lines 50–58 parse
  `updated_at` with `Z` replaced by `+00:00` and convert a naive
  `last_fetched` to UTC before comparing).  After that normalisation every
  timestamp denotes an absolute instant; instants are modelled as `Int`
  (seconds).  One day is 86400 seconds (`timedelta(days=n)`).
* The value of `cache[repo_id].get("last_fetched")` is modelled by `TsField`:
  the key may be absent or `null` (`TsField.null`), hold the empty string
  (`TsField.empty`) — both falsy in the guard `if last_fetched_str:` — or hold
  a nonempty ISO string denoting an instant (`TsField.val t`).
* The GitHub fetch (`github.get_commits`, commit_agent.py lines 66–72) is an
  external call that either returns a commit list or raises; it is modelled by
  an oracle `fetch : Repo → FetchResult` passed as a parameter.
* The summarizer call `self.ai.run` inside `_generate_summary` (lines 120–133)
  always produces a string (exceptions are caught and turned into a
  `"Summary generation failed: ..."` string); it is modelled by a total oracle
  `summarize : String → List Commit → String`.  `sync_repos` is instrumented
  to additionally return how many fetches and how many summarizer invocations
  it performed, so that "no refetch" and "Summarizer call count = 0" are
  statable.
* The Python cache is a `dict`; it is modelled as an association list with
  first-match lookup and replace-or-append update, mirroring dict lookup and
  `self.cache[repo_id] = {...}`.
-/

namespace GitDash

/-- A normalised commit record, as produced by
`GitHubClient.get_commits` (github_client.py lines 151–158):
`{"sha": ..., "message": ..., "date": ..., "author": ...}`.
The ISO date string is modelled by the instant it denotes. -/
structure Commit where
  sha : String
  message : String
  date : Int
  author : String
deriving Repr, DecidableEq

/-- The value held under the `"last_fetched"` key of a cache entry:
absent or `null`, the empty string, or an ISO timestamp denoting instant `t`.
The first two are falsy in Python's `if last_fetched_str:` guard. -/
inductive TsField where
  | null : TsField
  | empty : TsField
  | val : Int → TsField
deriving Repr, DecidableEq

/-- One cache entry,
`{"commits": [...], "last_fetched": str, "summary": str|None, "summary_at": str|None}`
(commit_agent.py line 29 and lines 75–95). -/
structure Entry where
  commits : List Commit
  last_fetched : TsField
  summary : Option String
  summary_at : Option Int
deriving Repr, DecidableEq

/-- `CommitAgent.cache`: a Python dict keyed by the stringified repo id. -/
abbrev Cache := List (String × Entry)

/-- Dict lookup: first binding of the key, if any. -/
def cacheFind : Cache → String → Option Entry
  | [], _ => Option.none
  | (k, e) :: rest, key => if k = key then some e else cacheFind rest key

/-- Dict update `self.cache[repo_id] = entry`: replace the existing binding in
place, or append a new one. -/
def cacheInsert : Cache → String → Entry → Cache
  | [], key, e => [(key, e)]
  | (k, old) :: rest, key, e =>
    if k = key then (k, e) :: rest else (k, old) :: cacheInsert rest key e

/-- A repository dict as normalised by `GitHubClient.get_repos`
(github_client.py lines 60–66): id, name, owner, language (possibly `null`),
and `updated_at` (the `pushed_at` ISO string, modelled by its instant). -/
structure Repo where
  id : Int
  name : String
  owner : String
  language : Option String
  updated_at : Int
deriving Repr, DecidableEq

/-- Result of the external `github.get_commits` call: a commit list, or an
exception carrying its message. -/
inductive FetchResult where
  | ok : List Commit → FetchResult
  | err : String → FetchResult
deriving Repr, DecidableEq

/-- The staleness check of `CommitAgent.sync_repos` (lines 46–59): fetch
unless the entry exists, its `last_fetched` is truthy, and
`updated_at_dt <= last_fetched_dt`. -/
def needs_fetch (cache : Cache) (repoId : String) (updatedAt : Int) : Bool :=
  match cacheFind cache repoId with
  | Option.none => true
  | some entry =>
    match entry.last_fetched with
    | TsField.val t => decide (t < updatedAt)
    | _ => true

/-- `CommitAgent._generate_summary` (lines 97–133): returns the fixed
`"No recent activity"` string on an empty list, otherwise the summarizer
oracle's answer (which itself models `ai.run` plus its exception handler). -/
def generate_summary (summarize : String → List Commit → String)
    (repoName : String) (recentCommits : List Commit) : String :=
  if recentCommits.isEmpty then "No recent activity"
  else summarize repoName recentCommits

/-- One iteration of the loop in `CommitAgent.sync_repos` (lines 40–95) for a
single repo.  Returns the new cache, the number of fetch attempts performed
(0 or 1) and the number of summarizer (`ai.run`) invocations (0 or 1).

On a successful fetch the entry is first stored with `summary = None`
(lines 75–80) and, when the commit list is nonempty, the summary of the first
5 commits is filled in (lines 83–86); the net effect on the cache is the
single final entry.  On a fetch exception the error entry of lines 90–95 is
stored.  -/
def sync_one (fetch : Repo → FetchResult)
    (summarize : String → List Commit → String)
    (asOf : Int) (cache : Cache) (repo : Repo) : Cache × Nat × Nat :=
  let repoId := toString repo.id
  if needs_fetch cache repoId repo.updated_at then
    match fetch repo with
    | FetchResult.ok commits =>
      if commits.isEmpty then
        (cacheInsert cache repoId
          ⟨commits, TsField.val asOf, Option.none, Option.none⟩, 1, 0)
      else
        (cacheInsert cache repoId
          ⟨commits, TsField.val asOf,
            some (generate_summary summarize repo.name (commits.take 5)),
            some asOf⟩, 1, 1)
    | FetchResult.err msg =>
      (cacheInsert cache repoId
        ⟨[], TsField.val asOf, some ("Error: " ++ msg.take 50),
          some asOf⟩, 1, 0)
  else (cache, 0, 0)

/-- `CommitAgent.sync_repos`: fold `sync_one` over the repo list, summing the
fetch and summarizer counters. -/
def sync_repos (fetch : Repo → FetchResult)
    (summarize : String → List Commit → String)
    (asOf : Int) (cache : Cache) (repos : List Repo) : Cache × Nat × Nat :=
  repos.foldl
    (fun acc repo =>
      let r := sync_one fetch summarize asOf acc.1 repo
      (r.1, acc.2.1 + r.2.1, acc.2.2 + r.2.2))
    (cache, 0, 0)

/-- `CommitAgent.get_commits` (lines 135–140). -/
def get_commits (cache : Cache) (repoId : Int) : List Commit :=
  match cacheFind cache (toString repoId) with
  | some entry => entry.commits
  | Option.none => []

/-- Python's `x or d` on an optional string: `d` when the value is `None` or
the empty string (both falsy), the value otherwise. -/
def orTruthy (s : Option String) (d : String) : String :=
  match s with
  | Option.none => d
  | some t => if t = "" then d else t

/-- `CommitAgent.get_summary` (lines 142–147):
`self.cache[repo_id].get("summary") or "No summary available"` when the entry
exists, `"Not synced yet"` otherwise. -/
def get_summary (cache : Cache) (repoId : Int) : String :=
  match cacheFind cache (toString repoId) with
  | some entry => orTruthy entry.summary ("No summary available")
  | Option.none => "Not synced yet"

/-- `Board._count_commits_in_window` (board.py lines 69–92): number of cached
commits whose instant is at or after `asOf - days`.  The Python code parses
each commit's ISO date and compares `commit_date >= cutoff`; instants are
already normalised here. -/
def count_commits_in_window (asOf : Int) (commits : List Commit)
    (days : Int) : Nat :=
  commits.countP (fun c => decide (asOf - days * 86400 ≤ c.date))

/-- One dashboard row (board.py `ProjectRow`, lines 8–17). -/
structure ProjectRow where
  project : String
  url : String
  commit_count_3d : Nat
  commit_count_30d : Nat
  language : String
  working_state : String
  loc : Nat
  weight : Nat
deriving Repr, DecidableEq

/-- The row built for one repo in `Board.get_projects` (lines 45–62). -/
def mkRow (cache : Cache) (asOf : Int) (repo : Repo) : ProjectRow :=
  let commits := get_commits cache repo.id
  let c3 := count_commits_in_window asOf commits 3
  let c30 := count_commits_in_window asOf commits 30
  { project := repo.name
    url := "https://github.com/" ++ repo.owner ++ "/" ++ repo.name
    commit_count_3d := c3
    commit_count_30d := c30
    language := orTruthy repo.language ("N/A")
    working_state := get_summary cache repo.id
    loc := 0
    weight := 5 * c3 + c30 }

/-- The comparison used by `projects.sort(key=lambda p: p["weight"],
reverse=True)`: `a` may come before `b` iff `a.weight ≥ b.weight`. -/
def weightGE (a b : ProjectRow) : Bool := decide (b.weight ≤ a.weight)

/-- `Board.get_projects` (lines 36–67): build one row per repo, then sort by
weight descending.  Python's `list.sort` is a stable sort; with
`reverse=True` equal-weight rows keep their input order, which is exactly
`List.mergeSort` with the `weightGE` comparison. -/
def get_projects (cache : Cache) (asOf : Int) (repos : List Repo) :
    List ProjectRow :=
  (repos.map (mkRow cache asOf)).mergeSort weightGE

/-! ## Persistence (`save_cache` / `load_cache`)

`CommitAgent.save_cache` (lines 149–153) dumps the cache dict to JSON;
`load_cache` (lines 155–163) parses the file back when it exists.  The JSON
value tree is modelled by `Json`; ISO-8601 timestamp strings inside it are
modelled by the instants they denote (`Json.num`), matching the instant
abstraction used everywhere else, and `Json.str ""` keeps the empty string
distinct. -/

/-- A JSON value, as produced by `json.dump` / consumed by `json.load`. -/
inductive Json where
  | null : Json
  | str : String → Json
  | num : Int → Json
  | arr : List Json → Json
  | obj : List (String × Json) → Json
deriving Repr

/-- First binding of a key in a JSON object body. -/
def jsonLookup : List (String × Json) → String → Option Json
  | [], _ => Option.none
  | (k, v) :: rest, key => if k = key then some v else jsonLookup rest key

/-- Serialise one commit dict. -/
def encodeCommit (c : Commit) : Json :=
  Json.obj [("sha", Json.str c.sha), ("message", Json.str c.message),
    ("date", Json.num c.date), ("author", Json.str c.author)]

/-- Parse one commit dict. -/
def decodeCommit : Json → Option Commit
  | Json.obj kvs =>
    match jsonLookup kvs ("sha"), jsonLookup kvs ("message"),
        jsonLookup kvs ("date"), jsonLookup kvs ("author") with
    | some (Json.str sha), some (Json.str message),
        some (Json.num date), some (Json.str author) =>
      some ⟨sha, message, date, author⟩
    | _, _, _, _ => Option.none
  | _ => Option.none

/-- Serialise the `last_fetched` field. -/
def encodeTsField : TsField → Json
  | TsField.null => Json.null
  | TsField.empty => Json.str ""
  | TsField.val t => Json.num t

/-- Parse the `last_fetched` field. -/
def decodeTsField : Json → Option TsField
  | Json.null => some TsField.null
  | Json.str s => if s = "" then some TsField.empty else Option.none
  | Json.num t => some (TsField.val t)
  | _ => Option.none

/-- Serialise an optional string (`summary`). -/
def encodeOptStr : Option String → Json
  | Option.none => Json.null
  | some s => Json.str s

/-- Serialise an optional instant (`summary_at`). -/
def encodeOptInt : Option Int → Json
  | Option.none => Json.null
  | some t => Json.num t

/-- Traverse a list of JSON values with a parser. -/
def decodeList (f : Json → Option α) : List Json → Option (List α)
  | [] => some []
  | j :: rest =>
    match f j, decodeList f rest with
    | some a, some tail => some (a :: tail)
    | _, _ => Option.none

/-- Serialise one cache entry, with the four keys written by `sync_repos`. -/
def encodeEntry (e : Entry) : Json :=
  Json.obj [("commits", Json.arr (e.commits.map encodeCommit)),
    ("last_fetched", encodeTsField e.last_fetched),
    ("summary", encodeOptStr e.summary),
    ("summary_at", encodeOptInt e.summary_at)]

/-- Parse one cache entry. -/
def decodeEntry : Json → Option Entry
  | Json.obj kvs =>
    match jsonLookup kvs ("commits"), jsonLookup kvs ("last_fetched"),
        jsonLookup kvs ("summary"), jsonLookup kvs ("summary_at") with
    | some (Json.arr cs), some lf, some sm, some sa =>
      match decodeList decodeCommit cs, decodeTsField lf with
      | some commits, some last_fetched =>
        match sm, sa with
        | Json.null, Json.null =>
          some ⟨commits, last_fetched, Option.none, Option.none⟩
        | Json.null, Json.num t =>
          some ⟨commits, last_fetched, Option.none, some t⟩
        | Json.str s, Json.null =>
          some ⟨commits, last_fetched, some s, Option.none⟩
        | Json.str s, Json.num t =>
          some ⟨commits, last_fetched, some s, some t⟩
        | _, _ => Option.none
      | _, _ => Option.none
    | _, _, _, _ => Option.none
  | _ => Option.none

/-- `save_cache`: the whole store as one JSON object keyed by repo id. -/
def persist (cache : Cache) : Json :=
  Json.obj (cache.map (fun kv => (kv.1, encodeEntry kv.2)))

/-- Parse each binding of a persisted store, keeping keys and order. -/
def decodeBindings : List (String × Json) → Option Cache
  | [] => some []
  | (k, v) :: rest =>
    match decodeEntry v, decodeBindings rest with
    | some e, some c => some ((k, e) :: c)
    | _, _ => Option.none

/-- Parse a whole store. -/
def decodeCache : Json → Option Cache
  | Json.obj kvs => decodeBindings kvs
  | _ => Option.none

/-- `load_cache` into a fresh agent: parse the persisted JSON; an unreadable
shape leaves the fresh agent's empty cache. -/
def restore (j : Json) : Cache :=
  (decodeCache j).getD []

/-! ## Sequences of syncs

`test_time_travel.py` and `main.py` run whole dashboard passes at several
virtual times against the same persisted cache; a sequence of sync batches,
each with its own `as_of` clock, models this. -/

/-- Run a list of sync batches, each a pair of an `as_of` clock and a repo
list, threading the cache through. -/
def syncSeq (fetch : Repo → FetchResult)
    (summarize : String → List Commit → String) :
    Cache → List (Int × List Repo) → Cache
  | cache, [] => cache
  | cache, (asOf, repos) :: rest =>
    syncSeq fetch summarize (sync_repos fetch summarize asOf cache repos).1 rest

/-- Every recorded `last_fetched` instant in the cache is at most `t`. -/
def FetchedLE (cache : Cache) (t : Int) : Prop :=
  ∀ k e u, cacheFind cache k = some e → e.last_fetched = TsField.val u → u ≤ t

/-- Pointwise evolution relation between two cache states: every entry is
still present, and a recorded fetch instant never decreases. -/
def StepLE (c c' : Cache) : Prop :=
  ∀ k e, cacheFind c k = some e →
    ∃ e', cacheFind c' k = some e' ∧
      ∀ u, e.last_fetched = TsField.val u →
        ∃ u', e'.last_fetched = TsField.val u' ∧ u ≤ u'

/-! ## Basic lemmas about the cache dictionary and the sync step -/

theorem cacheFind_cacheInsert_self (c : Cache) (k : String) (e : Entry) :
    cacheFind (cacheInsert c k e) k = some e := by
  induction c with
  | nil => simp [cacheInsert, cacheFind]
  | cons hd tl ih =>
    by_cases h : hd.1 = k
    · simp [cacheInsert, cacheFind, h]
    · simpa [cacheInsert, cacheFind, h] using ih

theorem cacheFind_cacheInsert_ne (c : Cache) (k key : String) (e : Entry)
    (h : k ≠ key) : cacheFind (cacheInsert c key e) k = cacheFind c k := by
  induction c with
  | nil => simp [cacheInsert, cacheFind, Ne.symm h]
  | cons hd tl ih =>
    by_cases hk : hd.1 = key
    · subst hk
      simp [cacheInsert, cacheFind, Ne.symm h]
    · by_cases hk2 : hd.1 = k <;> simp [cacheInsert, cacheFind, hk, hk2, ih, h]

/-- The staleness guard in full: `needs_fetch` is `false` exactly when an
entry exists whose `last_fetched` is a real timestamp at or after the
activity timestamp. -/
theorem needs_fetch_eq_false_iff (c : Cache) (id : String) (u : Int) :
    needs_fetch c id u = false ↔
      ∃ e t, cacheFind c id = some e ∧ e.last_fetched = TsField.val t ∧
        u ≤ t := by
  unfold needs_fetch
  cases hf : cacheFind c id with
  | none => simp [hf]
  | some e =>
    cases hlf : e.last_fetched with
    | null => simp [hlf]
    | empty => simp [hlf]
    | val t =>
      simp only [hlf, decide_eq_false_iff_not, not_lt]
      constructor
      · intro h
        exact ⟨e, t, rfl, hlf, h⟩
      · rintro ⟨e', t', he, hl, hu⟩
        cases he
        rw [hlf] at hl
        cases hl
        exact hu

/-- `needs_fetch` on an entry with a recorded instant is the strict
comparison of that instant against the activity timestamp. -/
theorem needs_fetch_val (c : Cache) (id : String) (u : Int) (e : Entry)
    (t : Int) (hfind : cacheFind c id = some e)
    (hlf : e.last_fetched = TsField.val t) :
    needs_fetch c id u = decide (t < u) := by
  unfold needs_fetch
  rw [hfind]
  show (match e.last_fetched with
    | TsField.val t => decide (t < u)
    | _ => true) = decide (t < u)
  rw [hlf]

/-- A sync step on a repository that is not stale does nothing. -/
theorem sync_one_of_fresh (F : Repo → FetchResult)
    (S : String → List Commit → String) (asOf : Int) (c : Cache) (r : Repo)
    (h : needs_fetch c (toString r.id) r.updated_at = false) :
    sync_one F S asOf c r = (c, 0, 0) := by
  simp [sync_one, h]

/-- Every stale sync step performs exactly one fetch and replaces the
repository's entry with one whose `last_fetched` is the current clock. -/
theorem sync_one_of_stale (F : Repo → FetchResult)
    (S : String → List Commit → String) (asOf : Int) (c : Cache) (r : Repo)
    (h : needs_fetch c (toString r.id) r.updated_at = true) :
    ∃ e' n, e'.last_fetched = TsField.val asOf ∧
      sync_one F S asOf c r = (cacheInsert c (toString r.id) e', 1, n) := by
  unfold sync_one
  simp only [h, if_true]
  cases hF : F r with
  | ok commits =>
    by_cases hc : commits.isEmpty
    · simp only [hc, if_true]
      exact ⟨_, _, rfl, rfl⟩
    · simp only [hc, if_false]
      exact ⟨_, _, rfl, rfl⟩
  | err msg => exact ⟨_, _, rfl, rfl⟩

/-- The fold underlying `sync_repos` only reads the cache component of its
accumulator; starting counters shift the result additively. -/
theorem sync_repos_shift (F : Repo → FetchResult)
    (S : String → List Commit → String) (asOf : Int) :
    ∀ (rs : List Repo) (c : Cache) (n m : Nat),
      (rs.foldl
        (fun acc repo =>
          let x := sync_one F S asOf acc.1 repo
          (x.1, acc.2.1 + x.2.1, acc.2.2 + x.2.2)) (c, n, m)) =
      ((sync_repos F S asOf c rs).1,
        n + (sync_repos F S asOf c rs).2.1,
        m + (sync_repos F S asOf c rs).2.2) := by
  intro rs
  induction rs with
  | nil => intro c n m; simp [sync_repos]
  | cons hd tl ih =>
    intro c n m
    rw [List.foldl_cons]
    show (tl.foldl _
      ((sync_one F S asOf c hd).1, n + (sync_one F S asOf c hd).2.1,
        m + (sync_one F S asOf c hd).2.2)) = _
    rw [ih]
    have hrhs : sync_repos F S asOf c (hd :: tl) =
        tl.foldl
          (fun acc repo =>
            let x := sync_one F S asOf acc.1 repo
            (x.1, acc.2.1 + x.2.1, acc.2.2 + x.2.2))
          ((sync_one F S asOf c hd).1, 0 + (sync_one F S asOf c hd).2.1,
            0 + (sync_one F S asOf c hd).2.2) := by
      rw [sync_repos, List.foldl_cons]
    rw [hrhs, ih]
    refine Prod.ext rfl (Prod.ext ?_ ?_) <;> simp <;> omega

/-- Unfolding `sync_repos` on a cons cell: the counters accumulate and the
cache threads through. -/
theorem sync_repos_cons (F : Repo → FetchResult)
    (S : String → List Commit → String) (asOf : Int) (c : Cache) (r : Repo)
    (rs : List Repo) :
    sync_repos F S asOf c (r :: rs) =
      ((sync_repos F S asOf (sync_one F S asOf c r).1 rs).1,
       (sync_one F S asOf c r).2.1 +
         (sync_repos F S asOf (sync_one F S asOf c r).1 rs).2.1,
       (sync_one F S asOf c r).2.2 +
         (sync_repos F S asOf (sync_one F S asOf c r).1 rs).2.2) := by
  rw [sync_repos, List.foldl_cons]
  show (rs.foldl _
    ((sync_one F S asOf c r).1, 0 + (sync_one F S asOf c r).2.1,
      0 + (sync_one F S asOf c r).2.2)) = _
  rw [sync_repos_shift]
  refine Prod.ext rfl (Prod.ext ?_ ?_) <;> simp

/-- `sync_repos` on a singleton batch is exactly one `sync_one` step. -/
theorem sync_repos_singleton (F : Repo → FetchResult)
    (S : String → List Commit → String) (asOf : Int) (c : Cache) (r : Repo) :
    sync_repos F S asOf c [r] = sync_one F S asOf c r := by
  rw [sync_repos_cons]
  simp [sync_repos]

/-- When the cache already records a fetch instant at or after the repo's
activity timestamp, a singleton sync is a complete no-op: no fetch, no
summarizer call, cache returned unchanged. -/
theorem sync_noop_of_recorded (F : Repo → FetchResult)
    (S : String → List Commit → String) (asOf : Int) (c : Cache) (r : Repo)
    (e : Entry) (t : Int)
    (hfind : cacheFind c (toString r.id) = some e)
    (hlf : e.last_fetched = TsField.val t)
    (hle : r.updated_at ≤ t) :
    sync_repos F S asOf c [r] = (c, 0, 0) := by
  rw [sync_repos_singleton]
  exact sync_one_of_fresh F S asOf c r
    ((needs_fetch_eq_false_iff c (toString r.id) r.updated_at).mpr
      ⟨e, t, hfind, hlf, hle⟩)

/-! ## C1 — staleness threshold -/

/-- Fixture: a fetch oracle that always succeeds with one commit. -/
def fetchC1 : Repo → FetchResult :=
  fun _ => FetchResult.ok [⟨"s1", "m1", 5, "a1"⟩]

/-- Fixture: a summarizer oracle. -/
def summC1 : String → List Commit → String := fun _ _ => "keywords"

/-- Fixture: a cache entry whose recorded fetch instant is 100. -/
def eC1 : Entry := ⟨[], TsField.val 100, some ("old"), some 100⟩

/-- Fixture: repo whose activity timestamp equals the recorded fetch
instant 100. -/
def repoC1 : Repo := ⟨1, "alpha", "me", Option.none, 100⟩

/-- Fixture: same repo with activity timestamp strictly after the recorded
fetch instant. -/
def repoC1stale : Repo := ⟨1, "alpha", "me", Option.none, 150⟩

/-- C1 counterexample: the claim says an activity timestamp *equal* to the
recorded `fetchedAt` forces a refetch.  It does not: with
`updated_at = last_fetched = 100` the sync performs zero fetches and leaves
the cache unchanged (`sync_repos` line 58 tests `updated_at_dt <=
last_fetched_dt`, so equality counts as fresh). -/
theorem C1_counterexample :
    sync_repos fetchC1 summC1 200 [("1", eC1)] [repoC1]
      = ([("1", eC1)], 0, 0) := by decide

/-- C1 (amended): for a repository with a recorded fetch instant `t`,
`sync([R])` refetches exactly when the activity timestamp is *strictly*
newer than `t`; an activity timestamp equal to or below `t` counts as still
fresh and leaves the entry untouched. -/
theorem C1_staleness (F : Repo → FetchResult)
    (S : String → List Commit → String) (asOf : Int) (c : Cache) (r : Repo)
    (e : Entry) (t : Int)
    (hfind : cacheFind c (toString r.id) = some e)
    (hlf : e.last_fetched = TsField.val t) :
    (r.updated_at ≤ t → sync_repos F S asOf c [r] = (c, 0, 0)) ∧
    (t < r.updated_at → (sync_repos F S asOf c [r]).2.1 = 1) := by
  constructor
  · intro hle
    exact sync_noop_of_recorded F S asOf c r e t hfind hlf hle
  · intro hlt
    rw [sync_repos_singleton]
    have hnf : needs_fetch c (toString r.id) r.updated_at = true := by
      rw [needs_fetch_val c (toString r.id) r.updated_at e t hfind hlf]
      simpa using hlt
    obtain ⟨e', n, _, heq⟩ := sync_one_of_stale F S asOf c r hnf
    rw [heq]

/-- C1 witness: at the recorded instant 100, activity 100 is fresh (no
fetch) and activity 150 triggers exactly one fetch. -/
theorem C1_staleness_witness :
    sync_repos fetchC1 summC1 200 [("1", eC1)] [repoC1]
        = ([("1", eC1)], 0, 0) ∧
    (sync_repos fetchC1 summC1 200 [("1", eC1)] [repoC1stale]).2.1 = 1 :=
  ⟨(C1_staleness fetchC1 summC1 200 [("1", eC1)] repoC1 eC1 100
      (by decide) (by decide)).1 (by decide),
   (C1_staleness fetchC1 summC1 200 [("1", eC1)] repoC1stale eC1 100
      (by decide) (by decide)).2 (by decide)⟩

/-! ## C5 — idempotence of a second sync -/

/-- Fixture: a fetch oracle returning one fixed commit. -/
def fetchC5 : Repo → FetchResult :=
  fun _ => FetchResult.ok [⟨"s5", "m5", 0, "a5"⟩]

/-- Fixture: a summarizer oracle. -/
def summC5 : String → List Commit → String := fun _ _ => "work"

/-- Fixture: repo whose activity timestamp 1 is newer than the clock 0 used
in the counterexample. -/
def repoC5 : Repo := ⟨5, "r5", "o5", Option.none, 1⟩

/-- C5 counterexample: with engine clock `as_of = 0` and an unchanged
activity timestamp 1, the first sync fetches and records `fetchedAt = 0`,
and the *second* sync fetches again (fetch count 1, not 0), because the
staleness test `1 > 0` still holds.  The claim's unconditional idempotence
fails. -/
theorem C5_counterexample :
    (sync_repos fetchC5 summC5 0
      (sync_repos fetchC5 summC5 0 [] [repoC5]).1 [repoC5]).2.1 = 1 := by
  decide

/-- C5 (amended): idempotence holds provided the repository's activity
timestamp is not later than the engine clock `as_of` that the prior sync
recorded as `fetchedAt`: then the second `sync([R])` performs no fetch, no
summarizer call, and returns the cache of the first sync unchanged. -/
theorem C5_idempotent (F : Repo → FetchResult)
    (S : String → List Commit → String) (asOf : Int) (c : Cache) (r : Repo)
    (h : r.updated_at ≤ asOf) :
    sync_repos F S asOf (sync_repos F S asOf c [r]).1 [r]
      = ((sync_repos F S asOf c [r]).1, 0, 0) := by
  have hs := sync_repos_singleton F S asOf c r
  by_cases h1 : needs_fetch c (toString r.id) r.updated_at
  · obtain ⟨e', n, hlf, heq⟩ := sync_one_of_stale F S asOf c r h1
    have hc1 : (sync_repos F S asOf c [r]).1
        = cacheInsert c (toString r.id) e' := by rw [hs, heq]
    rw [hc1]
    exact sync_noop_of_recorded F S asOf _ r e' asOf
      (cacheFind_cacheInsert_self c (toString r.id) e') hlf h
  · have h1f : needs_fetch c (toString r.id) r.updated_at = false := by
      revert h1
      cases needs_fetch c (toString r.id) r.updated_at <;> simp
    obtain ⟨e, t, hfind, hlf, hle⟩ :=
      (needs_fetch_eq_false_iff c (toString r.id) r.updated_at).mp h1f
    have hc1 : (sync_repos F S asOf c [r]).1 = c := by
      rw [hs, sync_one_of_fresh F S asOf c r h1f]
    rw [hc1]
    exact sync_noop_of_recorded F S asOf c r e t hfind hlf hle

/-- C5 witness: with clock `as_of = 2` and activity timestamp 1 ≤ 2, the
second sync after a first sync from the empty cache changes nothing. -/
theorem C5_idempotent_witness :
    sync_repos fetchC5 summC5 2 (sync_repos fetchC5 summC5 2 [] [repoC5]).1
        [repoC5]
      = ((sync_repos fetchC5 summC5 2 [] [repoC5]).1, 0, 0) :=
  C5_idempotent fetchC5 summC5 2 [] repoC5 (by decide)

/-! ## C3 — fetch failure handling -/

/-- Fixture: a fetch oracle that always raises. -/
def fetchC3 : Repo → FetchResult := fun _ => FetchResult.err ("boom")

/-- Fixture: a summarizer oracle (never reached on the error path). -/
def summC3 : String → List Commit → String := fun _ _ => "unused"

/-- Fixture: repo whose activity timestamp 1 is newer than the clock 0 used
in the counterexample. -/
def repoC3 : Repo := ⟨3, "r3", "o3", Option.none, 1⟩

/-- C3 counterexample: after a failed fetch at clock `as_of = 0` the error
entry records `fetchedAt = 0`; a second sync with the *same unchanged*
activity timestamp 1 nevertheless retries the fetch (fetch count 1, not 0),
because `1 > 0` keeps the entry stale.  The claim's unconditional "no retry"
fails. -/
theorem C3_counterexample :
    (sync_repos fetchC3 summC3 0
      (sync_repos fetchC3 summC3 0 [] [repoC3]).1 [repoC3]).2.1 = 1 := by
  decide

/-- C3 (amended): when the fetch of a stale repository raises, `sync` traps
the error (it is total and returns normally), stores an entry with empty
`changes`, `fetchedAt = as_of` and a summary `"Error: "` followed by the
first 50 characters of the message; afterwards `getChanges` is empty and the
summary starts with the `"Error: "` prefix.  A subsequent sync with the same
activity timestamp performs no retry *provided* that timestamp is not later
than the `as_of` the failed attempt recorded. -/
theorem C3_fetch_error (F : Repo → FetchResult)
    (S : String → List Commit → String) (asOf : Int) (c : Cache) (r : Repo)
    (msg : String) (hF : F r = FetchResult.err msg)
    (hstale : needs_fetch c (toString r.id) r.updated_at = true) :
    (sync_repos F S asOf c [r]
        = (cacheInsert c (toString r.id)
            ⟨[], TsField.val asOf, some ("Error: " ++ msg.take 50),
              some asOf⟩, 1, 0)) ∧
    get_commits (sync_repos F S asOf c [r]).1 r.id = [] ∧
    (∃ rest, get_summary (sync_repos F S asOf c [r]).1 r.id
        = "Error: " ++ rest) ∧
    (r.updated_at ≤ asOf →
      sync_repos F S asOf (sync_repos F S asOf c [r]).1 [r]
        = ((sync_repos F S asOf c [r]).1, 0, 0)) := by
  have heq : sync_repos F S asOf c [r]
      = (cacheInsert c (toString r.id)
          ⟨[], TsField.val asOf, some ("Error: " ++ msg.take 50),
            some asOf⟩, 1, 0) := by
    rw [sync_repos_singleton]
    simp only [sync_one]
    rw [hstale, hF]
    rfl
  have hfind : cacheFind (sync_repos F S asOf c [r]).1 (toString r.id)
      = some ⟨[], TsField.val asOf, some ("Error: " ++ msg.take 50),
          some asOf⟩ := by
    rw [heq]
    exact cacheFind_cacheInsert_self c (toString r.id) _
  have hne : ("Error: " ++ msg.take 50) ≠ "" := by
    intro h0
    have hlen := congrArg String.length h0
    rw [String.length_append] at hlen
    have h7 : ("Error: ").length = 7 := rfl
    have h0len : String.length "" = 0 := rfl
    rw [h7, h0len] at hlen
    omega
  refine ⟨heq, ?_, ?_, ?_⟩
  · unfold get_commits
    rw [hfind]
  · refine ⟨msg.take 50, ?_⟩
    unfold get_summary
    rw [hfind]
    simp only [orTruthy]
    rw [if_neg hne]
  · intro hle
    exact sync_noop_of_recorded F S asOf _ r _ asOf hfind rfl hle

/-- C3 witness: clock 5, activity 1 ≤ 5, fetch raises `"boom"`: the stored
entry, the empty `getChanges`, the `"Error: "` prefix and the absence of a
retry, all at a concrete input. -/
theorem C3_fetch_error_witness :
    (sync_repos fetchC3 summC3 5 [] [repoC3]
        = (cacheInsert [] ("3")
            ⟨[], TsField.val 5, some ("Error: " ++ ("boom").take 50),
              some 5⟩, 1, 0)) ∧
    get_commits (sync_repos fetchC3 summC3 5 [] [repoC3]).1 3 = [] ∧
    (∃ rest, get_summary (sync_repos fetchC3 summC3 5 [] [repoC3]).1 3
        = "Error: " ++ rest) ∧
    sync_repos fetchC3 summC3 5 (sync_repos fetchC3 summC3 5 [] [repoC3]).1
        [repoC3]
      = ((sync_repos fetchC3 summC3 5 [] [repoC3]).1, 0, 0) := by
  obtain ⟨h1, h2, h3, h4⟩ :=
    C3_fetch_error fetchC3 summC3 5 [] repoC3 ("boom") rfl (by decide)
  exact ⟨h1, h2, h3, h4 (by decide)⟩

/-! ## C2 — empty change list after a successful fetch -/

/-- Fixture: a fetch oracle that succeeds with an empty commit list. -/
def fetchC2 : Repo → FetchResult := fun _ => FetchResult.ok []

/-- Fixture: a summarizer oracle; the claim is that it is never invoked. -/
def summC2 : String → List Commit → String := fun _ _ => "AI words"

/-- Fixture: a not-yet-cached repository. -/
def repoC2 : Repo := ⟨7, "r7", "o7", Option.none, 1⟩

/-- C2 counterexample: after a successful fetch returning no commits, the
stored entry's `summary` is `None` — not the `"No recent activity"` sentinel
the claim requires (`sync_repos` lines 75–80 store `summary: None` and the
`if commits:` guard at line 83 skips the only code that could write the
sentinel).  The summarizer call count is indeed 0. -/
theorem C2_counterexample :
    cacheFind (sync_repos fetchC2 summC2 0 [] [repoC2]).1 ("7")
        = some ⟨[], TsField.val 0, Option.none, Option.none⟩ ∧
    (⟨[], TsField.val 0, Option.none, Option.none⟩ : Entry).summary
        ≠ some ("No recent activity") ∧
    (sync_repos fetchC2 summC2 0 [] [repoC2]).2.2 = 0 := by decide

/-- C2 (amended): for a stale repository whose fetch succeeds with an empty
change list, sync stores an entry with empty commits and an *unset* (`None`)
summary, performs exactly one fetch and zero summarizer invocations; the
user-facing summary then degrades to the `"No summary available"` sentinel
of `get_summary`, not to a "no recent activity" sentinel. -/
theorem C2_empty_fetch (F : Repo → FetchResult)
    (S : String → List Commit → String) (asOf : Int) (c : Cache) (r : Repo)
    (hF : F r = FetchResult.ok [])
    (hstale : needs_fetch c (toString r.id) r.updated_at = true) :
    (sync_repos F S asOf c [r]
        = (cacheInsert c (toString r.id)
            ⟨[], TsField.val asOf, Option.none, Option.none⟩, 1, 0)) ∧
    get_summary (sync_repos F S asOf c [r]).1 r.id
        = "No summary available" := by
  have heq : sync_repos F S asOf c [r]
      = (cacheInsert c (toString r.id)
          ⟨[], TsField.val asOf, Option.none, Option.none⟩, 1, 0) := by
    rw [sync_repos_singleton]
    simp only [sync_one]
    rw [hstale, hF]
    rfl
  refine ⟨heq, ?_⟩
  unfold get_summary
  rw [heq]
  rw [cacheFind_cacheInsert_self c (toString r.id) _]
  rfl

/-- C2 witness: a concrete empty fetch at clock 4 stores a `None` summary,
counts zero summarizer calls, and `get_summary` yields the degraded
sentinel. -/
theorem C2_empty_fetch_witness :
    (sync_repos fetchC2 summC2 4 [] [repoC2]
        = (cacheInsert [] ("7")
            ⟨[], TsField.val 4, Option.none, Option.none⟩, 1, 0)) ∧
    get_summary (sync_repos fetchC2 summC2 4 [] [repoC2]).1 7
        = "No summary available" :=
  C2_empty_fetch fetchC2 summC2 4 [] repoC2 rfl (by decide)

/-! ## C10 — falsy `last_fetched` forces a fetch -/

/-- C10: a cache entry whose `last_fetched` is absent/`null` or the empty
string is treated as stale regardless of the repository's activity
timestamp, and the sync performs a fetch that replaces the entry with one
whose `last_fetched` is the current clock. -/
theorem C10_falsy_last_fetched (F : Repo → FetchResult)
    (S : String → List Commit → String) (asOf : Int) (c : Cache) (r : Repo)
    (e : Entry) (hfind : cacheFind c (toString r.id) = some e)
    (hlf : e.last_fetched = TsField.null ∨ e.last_fetched = TsField.empty) :
    needs_fetch c (toString r.id) r.updated_at = true ∧
    ∃ e' n, e'.last_fetched = TsField.val asOf ∧
      sync_repos F S asOf c [r]
        = (cacheInsert c (toString r.id) e', 1, n) := by
  have hnf : needs_fetch c (toString r.id) r.updated_at = true := by
    unfold needs_fetch
    rw [hfind]
    show (match e.last_fetched with
      | TsField.val t => decide (t < r.updated_at)
      | _ => true) = true
    rcases hlf with h | h <;> rw [h]
  refine ⟨hnf, ?_⟩
  rw [sync_repos_singleton]
  exact sync_one_of_stale F S asOf c r hnf

/-- Fixture: an entry with a `null` `last_fetched` field. -/
def eC10 : Entry := ⟨[], TsField.null, some ("stored"), Option.none⟩

/-- Fixture: a repository whose activity timestamp is far in the past. -/
def repoC10 : Repo := ⟨1, "r10", "o10", Option.none, -999⟩

/-- C10 witness: an entry with `null` `last_fetched` and an activity
timestamp far in the past still fetches and is replaced. -/
theorem C10_falsy_last_fetched_witness :
    needs_fetch [("1", eC10)] (toString repoC10.id) repoC10.updated_at
        = true ∧
    ∃ e' n, e'.last_fetched = TsField.val 8 ∧
      sync_repos fetchC5 summC5 8 [("1", eC10)] [repoC10]
        = (cacheInsert [("1", eC10)] (toString repoC10.id) e', 1, n) :=
  C10_falsy_last_fetched fetchC5 summC5 8 [("1", eC10)] repoC10 eC10
    (by decide) (Or.inl rfl)

/-! ## C4 — monotonicity of `fetchedAt` -/

theorem stepLE_refl (c : Cache) : StepLE c c :=
  fun _ e h => ⟨e, h, fun u hu => ⟨u, hu, le_refl u⟩⟩

theorem stepLE_trans {a b c : Cache} (h1 : StepLE a b) (h2 : StepLE b c) :
    StepLE a c := by
  intro k e he
  obtain ⟨e1, he1, hv1⟩ := h1 k e he
  obtain ⟨e2, he2, hv2⟩ := h2 k e1 he1
  refine ⟨e2, he2, fun u hu => ?_⟩
  obtain ⟨u1, hu1, hle1⟩ := hv1 u hu
  obtain ⟨u2, hu2, hle2⟩ := hv2 u1 hu1
  exact ⟨u2, hu2, le_trans hle1 hle2⟩

theorem fetchedLE_mono {c : Cache} {t t2 : Int} (h : FetchedLE c t)
    (ht : t ≤ t2) : FetchedLE c t2 :=
  fun k e u hf hu => le_trans (h k e u hf hu) ht

/-- Writing an entry stamped with the current clock can only raise recorded
fetch instants, as long as the clock is at or after everything recorded. -/
theorem stepLE_cacheInsert (c : Cache) (id : String) (e' : Entry)
    (asOf : Int) (hc : FetchedLE c asOf)
    (hlf : e'.last_fetched = TsField.val asOf) :
    StepLE c (cacheInsert c id e') := by
  intro k e he
  by_cases hk : k = id
  · subst hk
    refine ⟨e', cacheFind_cacheInsert_self c k e', fun u hu => ?_⟩
    exact ⟨asOf, hlf, hc k e u he hu⟩
  · refine ⟨e, ?_, fun u hu => ⟨u, hu, le_refl u⟩⟩
    rw [cacheFind_cacheInsert_ne c k id e' hk]
    exact he

/-- Writing an entry stamped with the current clock preserves the bound. -/
theorem fetchedLE_cacheInsert (c : Cache) (id : String) (e' : Entry)
    (asOf : Int) (hc : FetchedLE c asOf)
    (hlf : e'.last_fetched = TsField.val asOf) :
    FetchedLE (cacheInsert c id e') asOf := by
  intro k e u hfind hu
  by_cases hk : k = id
  · subst hk
    rw [cacheFind_cacheInsert_self] at hfind
    cases hfind
    have h := hlf.symm.trans hu
    injection h with h
    rw [← h]
  · rw [cacheFind_cacheInsert_ne c k id e' hk] at hfind
    exact hc k e u hfind hu

/-- One sync step never lowers a recorded fetch instant when the clock is at
or after everything recorded, and the bound is preserved. -/
theorem sync_one_stepLE (F : Repo → FetchResult)
    (S : String → List Commit → String) (asOf : Int) (c : Cache) (r : Repo)
    (hc : FetchedLE c asOf) :
    StepLE c (sync_one F S asOf c r).1 ∧
    FetchedLE (sync_one F S asOf c r).1 asOf := by
  by_cases h : needs_fetch c (toString r.id) r.updated_at
  · obtain ⟨e', n, hlf, heq⟩ := sync_one_of_stale F S asOf c r h
    rw [heq]
    exact ⟨stepLE_cacheInsert c _ e' asOf hc hlf,
      fetchedLE_cacheInsert c _ e' asOf hc hlf⟩
  · have hf : needs_fetch c (toString r.id) r.updated_at = false := by
      revert h
      cases needs_fetch c (toString r.id) r.updated_at <;> simp
    rw [sync_one_of_fresh F S asOf c r hf]
    exact ⟨stepLE_refl c, hc⟩

/-- A whole sync batch never lowers a recorded fetch instant when its clock
is at or after everything recorded. -/
theorem sync_repos_stepLE (F : Repo → FetchResult)
    (S : String → List Commit → String) (asOf : Int) :
    ∀ (rs : List Repo) (c : Cache), FetchedLE c asOf →
      StepLE c (sync_repos F S asOf c rs).1 ∧
      FetchedLE (sync_repos F S asOf c rs).1 asOf := by
  intro rs
  induction rs with
  | nil => intro c hc; exact ⟨stepLE_refl c, hc⟩
  | cons r rest ih =>
    intro c hc
    obtain ⟨h1, h2⟩ := sync_one_stepLE F S asOf c r hc
    obtain ⟨h3, h4⟩ := ih (sync_one F S asOf c r).1 h2
    rw [sync_repos_cons]
    exact ⟨stepLE_trans h1 h3, h4⟩

/-- Across a sequence of sync batches with non-decreasing clocks, starting
no earlier than anything recorded, entries survive and their recorded fetch
instants never decrease. -/
theorem syncSeq_stepLE (F : Repo → FetchResult)
    (S : String → List Commit → String) :
    ∀ (batches : List (Int × List Repo)) (c : Cache) (t : Int),
      FetchedLE c t → List.Chain (· ≤ ·) t (batches.map Prod.fst) →
      StepLE c (syncSeq F S c batches) := by
  intro batches
  induction batches with
  | nil => intro c t _ _; exact stepLE_refl c
  | cons b rest ih =>
    intro c t hc hch
    rcases b with ⟨a, rs⟩
    cases hch with
    | cons ht hch2 =>
      obtain ⟨h1, h2⟩ := sync_repos_stepLE F S a rs c (fetchedLE_mono hc ht)
      exact stepLE_trans h1 (ih (sync_repos F S a c rs).1 a h2 hch2)

/-- Fixture: a fetch oracle returning no commits. -/
def fetchC4 : Repo → FetchResult := fun _ => FetchResult.ok []

/-- Fixture: a summarizer oracle. -/
def summC4 : String → List Commit → String := fun _ _ => "s"

/-- Fixture: repo whose activity timestamp 150 keeps it stale for both
batches of the counterexample. -/
def repoC4 : Repo := ⟨1, "r4", "o4", Option.none, 150⟩

/-- C4 counterexample: a sync at clock 100 records `fetchedAt = 100`; a
later sync of the same repository at the earlier clock 50 (the documented
time-travel `as_of` feature, exercised by `test_time_travel.py` against the
shared persisted cache) finds the repo stale again (150 > 100) and *replaces*
`fetchedAt` with 50 — an earlier instant than the one already recorded.  The
claim's unconditional monotonicity fails. -/
theorem C4_counterexample :
    cacheFind (syncSeq fetchC4 summC4 [] [(100, [repoC4])]) ("1")
        = some ⟨[], TsField.val 100, Option.none, Option.none⟩ ∧
    cacheFind (syncSeq fetchC4 summC4 []
        [(100, [repoC4]), (50, [repoC4])]) ("1")
        = some ⟨[], TsField.val 50, Option.none, Option.none⟩ := by decide

/-- C4 (amended): across any sequence of sync batches whose clocks are
non-decreasing and start no earlier than any `fetchedAt` already recorded
(i.e. absent time-travel), the cached `fetchedAt` of every repository is
non-decreasing: no sync replaces it with an earlier instant. -/
theorem C4_fetchedAt_monotone (F : Repo → FetchResult)
    (S : String → List Commit → String)
    (batches : List (Int × List Repo)) (c : Cache) (t : Int)
    (hc : FetchedLE c t)
    (hch : List.Chain (· ≤ ·) t (batches.map Prod.fst)) :
    ∀ k e e2 u u2, cacheFind c k = some e →
      e.last_fetched = TsField.val u →
      cacheFind (syncSeq F S c batches) k = some e2 →
      e2.last_fetched = TsField.val u2 →
      u ≤ u2 := by
  intro k e e2 u u2 hfind hu hfind2 hu2
  obtain ⟨e3, hfind3, hv⟩ := syncSeq_stepLE F S batches c t hc hch k e hfind
  obtain ⟨u3, hu3, hle⟩ := hv u hu
  rw [hfind2] at hfind3
  injection hfind3 with h3
  subst h3
  have h := hu3.symm.trans hu2
  injection h with h
  rw [← h]
  exact hle

/-- A singleton cache satisfies the `FetchedLE` bound as soon as its one
entry does. -/
theorem fetchedLE_singleton (k0 : String) (e0 : Entry) (t0 : Int)
    (h : ∀ u, e0.last_fetched = TsField.val u → u ≤ t0) :
    FetchedLE [(k0, e0)] t0 := by
  intro k e u hf hu
  by_cases hk : k0 = k
  · simp only [cacheFind, if_pos hk] at hf
    injection hf with hf
    rw [← hf] at hu
    exact h u hu
  · simp only [cacheFind, if_neg hk] at hf
    exact Option.noConfusion hf

/-- Fixture: the pre-recorded entry of the C4 witness, `fetchedAt = 5`. -/
def eC4 : Entry := ⟨[], TsField.val 5, Option.none, Option.none⟩

/-- C4 witness: starting from an entry recorded at instant 5 and syncing at
clock 10 ≥ 5, the instant recorded for the surviving entry, 10, is indeed
not below the original 5. -/
theorem C4_fetchedAt_monotone_witness : (5 : Int) ≤ 10 :=
  C4_fetchedAt_monotone fetchC4 summC4 [(10, [repoC4])]
    [("1", eC4)] 5
    (fetchedLE_singleton ("1") eC4 5 (fun u hu => by
      have h2 : TsField.val 5 = TsField.val u := hu
      injection h2 with h2
      rw [← h2]))
    (List.Chain.cons (by norm_num) List.Chain.nil)
    ("1") eC4 ⟨[], TsField.val 10, Option.none, Option.none⟩ 5 10
    (by decide) rfl (by decide) rfl

/-! ## C6 — `get_summary` sentinels -/

theorem orTruthy_none (d : String) : orTruthy Option.none d = d := rfl

theorem orTruthy_some_empty (d : String) : orTruthy (some ("")) d = d := rfl

theorem orTruthy_some {s : String} (d : String) (h : s ≠ "") :
    orTruthy (some s) d = s := by
  show (if s = "" then d else s) = s
  rw [if_neg h]

/-- Fixture: an entry whose summary is *set* but empty. -/
def eC6 : Entry := ⟨[], TsField.val 0, some (""), Option.none⟩

/-- Fixture: an entry with a real nonempty summary. -/
def eC6b : Entry := ⟨[], TsField.val 0, some ("live summary"), some 0⟩

/-- C6 counterexample: an entry whose `summary` is set to the empty string
does *not* get its cached summary returned: `get_summary` falls back to the
`"No summary available"` sentinel, because line 146 uses the truthiness
idiom `... or "No summary available"`, which treats the set-but-empty
summary like an unset one.  The claim's first arm ("the cached summary when
an entry exists with a summary set") fails at this input. -/
theorem C6_counterexample :
    cacheFind [("3", eC6)] ("3") = some eC6 ∧
    eC6.summary = some ("") ∧
    get_summary [("3", eC6)] 3 = "No summary available" ∧
    ("No summary available" : String) ≠ "" := by decide

/-- C6 (amended): `get_summary` always returns a string: the cached summary
when an entry exists with a *nonempty* summary set; the fixed
`"No summary available"` sentinel when an entry exists whose summary is
unset *or empty*; the fixed `"Not synced yet"` sentinel when no entry
exists; and the two sentinels are distinct fixed strings. -/
theorem C6_get_summary (cache : Cache) (id : Int) :
    (cacheFind cache (toString id) = Option.none →
      get_summary cache id = "Not synced yet") ∧
    (∀ e, cacheFind cache (toString id) = some e →
      ((e.summary = Option.none ∨ e.summary = some ("")) →
        get_summary cache id = "No summary available") ∧
      (∀ s, e.summary = some s → s ≠ "" →
        get_summary cache id = s)) ∧
    ("Not synced yet" : String) ≠ "No summary available" := by
  refine ⟨?_, ?_, by decide⟩
  · intro h
    unfold get_summary
    rw [h]
  · intro e he
    constructor
    · intro hs
      unfold get_summary
      rw [he]
      show orTruthy e.summary ("No summary available") = "No summary available"
      rcases hs with h | h
      · rw [h, orTruthy_none]
      · rw [h, orTruthy_some_empty]
    · intro s hsum hne
      unfold get_summary
      rw [he]
      show orTruthy e.summary ("No summary available") = s
      rw [hsum, orTruthy_some _ hne]

/-- C6 witness: the three arms at concrete inputs — missing entry, empty
summary, and a real nonempty summary. -/
theorem C6_get_summary_witness :
    get_summary [] 9 = "Not synced yet" ∧
    get_summary [("3", eC6)] 3 = "No summary available" ∧
    get_summary [("4", eC6b)] 4 = "live summary" :=
  ⟨(C6_get_summary [] 9).1 rfl,
   ((C6_get_summary [("3", eC6)] 3).2.1 eC6 (by decide)).1 (Or.inr rfl),
   ((C6_get_summary [("4", eC6b)] 4).2.1 eC6b (by decide)).2
     ("live summary") rfl (by decide)⟩

/-! ## C7 — the composite weight formula -/

/-- C7: every input repository's emitted dashboard row is in the output of
`get_projects`, and its weight is `5 * count3d + count30d` where the counts
are the cached-commit window counts. -/
theorem C7_weight_formula (cache : Cache) (asOf : Int) (repos : List Repo)
    (r : Repo) (hr : r ∈ repos) :
    mkRow cache asOf r ∈ get_projects cache asOf repos ∧
    (mkRow cache asOf r).weight
      = 5 * count_commits_in_window asOf (get_commits cache r.id) 3
        + count_commits_in_window asOf (get_commits cache r.id) 30 := by
  constructor
  · unfold get_projects
    rw [List.mem_mergeSort]
    exact List.mem_map_of_mem _ hr
  · rfl

/-- Fixture: a commit at instant `d`. -/
def cmC7 (d : Int) : Commit := ⟨"c", "m", d, "a"⟩

/-- Fixture: 4 commits inside the 3-day window and 6 more inside only the
30-day window, relative to clock 0. -/
def commitsC7 : List Commit :=
  [cmC7 (-1), cmC7 (-2), cmC7 (-3), cmC7 (-4), cmC7 (-300001),
    cmC7 (-300002), cmC7 (-300003), cmC7 (-300004), cmC7 (-300005),
    cmC7 (-300006)]

/-- Fixture: the cached entry holding those commits. -/
def cacheC7 : Cache :=
  [("7", ⟨commitsC7, TsField.val 0, some ("w"), Option.none⟩)]

/-- Fixture: the repository of the C7 witness. -/
def repoC7 : Repo := ⟨7, "p7", "o7", some ("Py"), 0⟩

/-- C7 witness: with `count3d = 4` and `count30d = 10` the emitted row's
weight is `5*4+10 = 30`. -/
theorem C7_weight_formula_witness :
    mkRow cacheC7 0 repoC7 ∈ get_projects cacheC7 0 [repoC7] ∧
    (mkRow cacheC7 0 repoC7).weight = 5 * 4 + 10 := by
  obtain ⟨h1, h2⟩ := C7_weight_formula cacheC7 0 [repoC7] repoC7 (by decide)
  refine ⟨h1, ?_⟩
  rw [h2]
  decide

/-! ## C8 — descending, stable ranking -/

theorem weightGE_trans (a b c : ProjectRow) (hab : weightGE a b)
    (hbc : weightGE b c) : weightGE a c := by
  unfold weightGE at *
  simp only [decide_eq_true_eq] at *
  omega

theorem weightGE_total (a b : ProjectRow) : weightGE a b || weightGE b a := by
  unfold weightGE
  rcases Nat.le_total a.weight b.weight with h | h <;> simp [h]

/-- C8: `get_projects` emits its rows sorted by weight in descending order,
and for every weight value the rows carrying it appear in exactly their
input order (stability of Python's `list.sort`). -/
theorem C8_sorted_stable (cache : Cache) (asOf : Int) (repos : List Repo) :
    List.Pairwise (fun a b => b.weight ≤ a.weight)
      (get_projects cache asOf repos) ∧
    ∀ w, (get_projects cache asOf repos).filter
          (fun row => decide (row.weight = w))
        = (repos.map (mkRow cache asOf)).filter
          (fun row => decide (row.weight = w)) := by
  constructor
  · have hs := List.sorted_mergeSort weightGE_trans weightGE_total
      (repos.map (mkRow cache asOf))
    exact hs.imp (fun h => by simpa [weightGE] using h)
  · intro w
    have hmemp : ∀ row ∈ (repos.map (mkRow cache asOf)).filter
        (fun row => decide (row.weight = w)),
        (fun row => decide (row.weight = w)) row = true :=
      fun row hrow => (List.mem_filter.mp hrow).2
    have hpw : ((repos.map (mkRow cache asOf)).filter
        (fun row => decide (row.weight = w))).Pairwise
        (fun a b => weightGE a b) := by
      apply List.pairwise_of_forall_mem_list
      intro a ha b hb
      have ha2 : a.weight = w := by simpa using hmemp a ha
      have hb2 : b.weight = w := by simpa using hmemp b hb
      unfold weightGE
      simp [ha2, hb2]
    have h1 := List.sublist_mergeSort weightGE_trans weightGE_total hpw
      (List.filter_sublist (repos.map (mkRow cache asOf)))
    have h2 := h1.filter (fun row => decide (row.weight = w))
    rw [List.filter_eq_self.mpr hmemp] at h2
    have h3 : List.Perm
        (((repos.map (mkRow cache asOf)).mergeSort weightGE).filter
          (fun row => decide (row.weight = w)))
        ((repos.map (mkRow cache asOf)).filter
          (fun row => decide (row.weight = w))) :=
      (List.mergeSort_perm (repos.map (mkRow cache asOf)) weightGE).filter _
    exact (h2.eq_of_length h3.length_eq.symm).symm

/-! ## C9 — persist / restore round trip -/

theorem decodeCommit_encodeCommit (c : Commit) :
    decodeCommit (encodeCommit c) = some c := rfl

theorem decodeList_encodeCommit (cs : List Commit) :
    decodeList decodeCommit (cs.map encodeCommit) = some cs := by
  induction cs with
  | nil => rfl
  | cons c rest ih => simp [decodeList, decodeCommit_encodeCommit, ih]

theorem decodeEntry_encodeEntry (e : Entry) :
    decodeEntry (encodeEntry e) = some e := by
  obtain ⟨cs, lf, sm, sa⟩ := e
  have hc := decodeList_encodeCommit cs
  cases lf <;> cases sm <;> cases sa <;>
    simp [encodeEntry, decodeEntry, jsonLookup, encodeTsField,
      decodeTsField, encodeOptStr, encodeOptInt, hc]

theorem decodeBindings_persist (c : Cache) :
    decodeBindings (c.map (fun kv => (kv.1, encodeEntry kv.2)))
      = some c := by
  induction c with
  | nil => rfl
  | cons kv rest ih =>
    obtain ⟨k, e⟩ := kv
    simp [decodeBindings, decodeEntry_encodeEntry, ih]

/-- `load_cache` after `save_cache` recovers the store exactly. -/
theorem restore_persist (c : Cache) : restore (persist c) = c := by
  show (decodeBindings (c.map (fun kv => (kv.1, encodeEntry kv.2)))).getD [] = c
  rw [decodeBindings_persist]
  rfl

/-- C9: persisting the store and restoring it into a fresh agent leaves
`get_commits` and `get_summary` observationally identical, for every
identifier. -/
theorem C9_roundtrip (cache : Cache) (id : Int) :
    get_commits (restore (persist cache)) id = get_commits cache id ∧
    get_summary (restore (persist cache)) id = get_summary cache id := by
  rw [restore_persist]
  exact ⟨rfl, rfl⟩

end GitDash
